import Mathlib

/-!
Verification development for the hpraid_exporter repository
(`hpraid_exporter.go`).  The Go program parses the indentation-structured
output of `hpssacli ctrl all show config` into a Controller/Array/Drive
tree, flattens it into labelled metric rows, and normalizes raw status
strings to numeric codes.  This file shallowly embeds the parsing and
status-extraction pipeline (the regular expressions are hand-translated
into equivalent deterministic matchers over `List Char`, following the
leftmost-first submatch semantics of Go's `regexp` package) and proves
the specification claims about it.

Numeric modelling: Go computes sizes with `float64` arithmetic
(`strconv.ParseFloat`, `math.Log`, `math.Floor`).  The embedding uses
exact natural-number arithmetic; on every value exercised by the claims
(integer mantissas with results well below 2^53, scaled values away from
powers of 1000) the `float64` computation is exact and agrees with the
exact model.  Each affected definition carries a note at the divergence
point.
-/

namespace HP

/-- RE2 character class `\s` (= `[\t\n\f\r ]`), used by the `\s*`/`\s+`
pieces of the Go regular expressions. -/
def isSpc (c : Char) : Bool :=
  c = ' ' || c = '\t' || c = '\n' || c = '\x0c' || c = '\r'

/-- Value of a decimal digit string, as computed by `strconv.ParseUint`
(and by `strconv.ParseFloat` for the integer part). -/
def digitsToNat (l : List Char) : Nat :=
  l.foldl (fun a c => a * 10 + (c.toNat - 48)) 0

/-- The character for the decimal digit `d % 10`, as printed by `fmt`. -/
def digitChar (d : Nat) : Char := Char.ofNat (48 + d % 10)

/-- Helper for base-10 rendering of a natural number (the `fuel`
argument bounds the recursion; `natToChars` passes enough). -/
def natToCharsAux : Nat → Nat → List Char → List Char
  | 0, _, acc => acc
  | f + 1, n, acc =>
    if n < 10 then digitChar n :: acc
    else natToCharsAux f (n / 10) (digitChar n :: acc)

/-- Decimal rendering of a natural number, as `fmt.Sprintf("%d", n)`. -/
def natToChars (n : Nat) : List Char := natToCharsAux (n + 1) n []

/-- Submatch record for `szRx` =
`^\s*((\d+)(\.\d+)?)\s+((K|M|G|T)B)?$`: the integer digits (group 2),
the fraction digits (group 3 without the dot, `[]` when absent), and
the first character of group 4 (= group 5: `K`/`M`/`G`/`T`, `none` when
the unit is absent). -/
structure SzMatch where
  intDigits : List Char
  fracDigits : List Char
  unit : Option Char
deriving DecidableEq, Repr

/-- The optional `(\.\d+)?` piece of `szRx`: a dot must be followed by
at least one digit (otherwise neither taking the option nor skipping it
lets the mandatory `\s+` that follows match the `.`). -/
def fracSplit : List Char → Option (List Char × List Char)
  | '.' :: rest =>
    let f := rest.takeWhile Char.isDigit
    if f.isEmpty then none else some (f, rest.dropWhile Char.isDigit)
  | l => some ([], l)

/-- Anchored matcher for `szRx` = `^\s*((\d+)(\.\d+)?)\s+((K|M|G|T)B)?$`
(the size grammar of `convertHumanReadableToBytes`).  Note the `\s+`
between the number and the optional unit is mandatory. -/
def szMatch (l : List Char) : Option SzMatch :=
  let l1 := l.dropWhile isSpc
  let ds := l1.takeWhile Char.isDigit
  let r1 := l1.dropWhile Char.isDigit
  if ds.isEmpty then none
  else
    match fracSplit r1 with
    | none => none
    | some (fr, r2) =>
      let sp := r2.takeWhile isSpc
      let r3 := r2.dropWhile isSpc
      if sp.isEmpty then none
      else
        match r3 with
        | [] => some ⟨ds, fr, none⟩
        | [u, b] =>
          if b = 'B' && (u = 'K' || u = 'M' || u = 'G' || u = 'T')
          then some ⟨ds, fr, some u⟩ else none
        | _ => none

/-- The `switch matched[5][0]` of `convertHumanReadableToBytes`: decimal
multiplier per unit letter.  The Go switch also lists `P` and `E`, which
`szRx` can never produce; an absent unit makes `matched[5][0]` panic
(index into the empty string), and any other letter hits the
`panic("Unknown size prefix")` default — both modelled as `none`. -/
def mulOf : Char → Option Nat
  | 'K' => some 1000
  | 'M' => some (1000 * 1000)
  | 'G' => some (1000 * 1000 * 1000)
  | 'T' => some (1000 * 1000 * 1000 * 1000)
  | 'P' => some (1000 * 1000 * 1000 * 1000 * 1000)
  | 'E' => some (1000 * 1000 * 1000 * 1000 * 1000 * 1000)
  | _ => none

/-- Core of `convertHumanReadableToBytes` on a character list.  Go computes
`uint64(n * float64(mul))` with `n := ParseFloat(matched[1], 64)`; here
the same value is computed exactly:
`floor((intPart.fracPart) * mul) = (digits(int++frac) * mul) / 10^|frac|`.
For every input whose exact result is below 2^53 with an exactly
representable mantissa (in particular all integer mantissas occurring in
the claims) the `float64` computation is exact and the two agree.
A failed regexp match panics in Go (`panic("no match for " + s)`),
modelled as `none`. -/
def convB (l : List Char) : Option Nat :=
  match szMatch l with
  | none => none
  | some m =>
    match m.unit with
    | none => none
    | some u =>
      match mulOf u with
      | none => none
      | some mul =>
        some ((digitsToNat m.intDigits * 10 ^ m.fracDigits.length
               + digitsToNat m.fracDigits) * mul / 10 ^ m.fracDigits.length)

/-- Model of `convertHumanReadableToBytes` (the spec's `parseSize`). -/
def convertHumanReadableToBytes (s : String) : Option Nat := convB s.data

/-- Fuel-driven `floor (log b n)`, the exact value of Go's
`math.Floor(logn(float64(s), 1000))` away from exact powers of the
base (all sizes exercised by the claims are away from those
boundaries). -/
def natLogF (b : Nat) : Nat → Nat → Nat
  | 0, _ => 0
  | f + 1, n => if n < b then 0 else natLogF b f (n / b) + 1

/-- The `sizes` table of `convertBytesToHumanReadable`. -/
def sizesL : List (List Char) :=
  [[], ['K', 'B'], ['M', 'B'], ['G', 'B'], ['T', 'B'], ['P', 'B'], ['E', 'B']]

/-- Rounding of `val = val10 / 10` to an integer as `fmt`'s `%.0f`
does (round to nearest, ties to even).  Go's `%.0f` rounds the binary
`float64`; for the half-integer values reachable here (`val10 % 10 = 5`
with `val ≤ 1000.5`, all exactly representable) that is exactly
round-half-to-even. -/
def fmtRound0 (val10 : Nat) : Nat :=
  let q := val10 / 10
  let r := val10 % 10
  if r < 5 then q else if 5 < r then q + 1
  else if q % 2 = 0 then q else q + 1

/-- Core of `convertBytesToHumanReadable` on character lists.  `e` models
`math.Floor(logn(float64(s), 1000))` and
`val10` models `math.Floor(float64(s)/1000^e*10 + 0.5)` exactly:
`floor(10*s/1000^e + 1/2) = (20*s + 1000^e) / (2*1000^e)`.
The `val < 10` test compares `val10 < 100`.  Go indexes `sizes[int(e)]`,
which is in bounds for every `uint64` input (`e ≤ 6`); `getD` returns
`[]` beyond that.  Note the format strings `"%.0f%s"`/`"%.1f%s"` place
no separator between the number and the unit suffix. -/
def convertBytesToHumanReadableL (s : Nat) : List Char :=
  if s < 10 then natToChars s
  else
    let e := natLogF 1000 s s
    let suffix := sizesL.getD e []
    let val10 := (20 * s + 1000 ^ e) / (2 * 1000 ^ e)
    if val10 < 100 then
      natToChars (val10 / 10) ++ '.' :: natToChars (val10 % 10) ++ suffix
    else
      natToChars (fmtRound0 val10) ++ suffix

/-- Model of `convertBytesToHumanReadable` (the spec's `formatSize`). -/
def convertBytesToHumanReadable (s : Nat) : String :=
  String.mk (convertBytesToHumanReadableL s)

/-- The `Drive` struct: one flat record; `physical` distinguishes the
logical-drive fields (`raidMode`) from the physical-drive fields
(`type`, `port`, `box`, `bay`). -/
structure Drive where
  id : String
  raidMode : String
  status : String
  size : Nat
  physical : Bool
  type : String
  port : String
  box : Nat
  bay : Nat
deriving DecidableEq, Repr

/-- The `Array` struct (named inside the `HP` namespace since root
`Array` is taken by Lean). -/
structure Array where
  id : Char
  type : String
  unusedSpace : Nat
  drives : List Drive
deriving DecidableEq, Repr

/-- The `Controller` struct.  Go's `CurrentArray *Array` always either
is nil or points at the last element of `Arrays` (it is set exclusively
by `Controller.Add`); it is modelled by the flag `hasCurrent`. -/
structure Controller where
  name : String
  type : String
  slot : Nat
  serialNumber : String
  arrays : List Array
  hasCurrent : Bool
deriving DecidableEq, Repr

/-- Matcher for `([^,]+),` at the start of `l`: the (nonempty) text before the
first comma, and the rest after that comma. -/
def commaField (l : List Char) : Option (List Char × List Char) :=
  let f := l.takeWhile (fun c => c ≠ ',')
  match l.dropWhile (fun c => c ≠ ',') with
  | _ :: rest => if f.isEmpty then none else some (f, rest)
  | [] => none

/-- Matcher for `([^\)]+)\)$` at the start of `l`: the (nonempty) text before the
first `)`, which must be the last character. -/
def closeField (l : List Char) : Option (List Char) :=
  let f := l.takeWhile (fun c => c ≠ ')')
  match l.dropWhile (fun c => c ≠ ')') with
  | [_] => if f.isEmpty then none else some f
  | _ => none

/-- Matcher for `\s+` at the start of `l`: requires at least one whitespace
character and skips the whole run. -/
def wsSkip1 (l : List Char) : Option (List Char) :=
  if (l.takeWhile isSpc).isEmpty then none else some (l.dropWhile isSpc)

/-- Matcher for `\s+([^sep]+)sep` at the start of `l`, with Go's leftmost-first
(greedy `\s+` first) submatch semantics: the segment up to the first
`sep` must begin with a whitespace character; the group is the segment
with its maximal whitespace run stripped, except that an all-whitespace
segment of length ≥ 2 backtracks one character into the group. -/
def wsThenField (sep : Char) (l : List Char) : Option (List Char × List Char) :=
  let seg := l.takeWhile (fun c => c ≠ sep)
  match l.dropWhile (fun c => c ≠ sep) with
  | [] => none
  | _ :: rest =>
    match seg with
    | [] => none
    | c :: _ =>
      if isSpc c then
        let g := seg.dropWhile isSpc
        if g.isEmpty then
          if 2 ≤ seg.length then some ([(seg.getLast?.getD ' ')], rest) else none
        else some (g, rest)
      else none

/-- Matcher for `\s+([^\)]+)\)$` at the start of `l` (same greedy/backtracking rule
as `wsThenField`, and the closing `)` must end the string). -/
def wsCloseField (l : List Char) : Option (List Char) :=
  let seg := l.takeWhile (fun c => c ≠ ')')
  match l.dropWhile (fun c => c ≠ ')') with
  | [_] =>
    match seg with
    | [] => none
    | c :: _ =>
      if isSpc c then
        let g := seg.dropWhile isSpc
        if g.isEmpty then
          if 2 ≤ seg.length then some [(seg.getLast?.getD ' ')] else none
        else some g
      else none
  | _ => none

/-- Literal-text matcher: strips `pat` from the front of `l`. -/
def lit (pat : List Char) (l : List Char) : Option (List Char) :=
  if pat.isPrefixOf l then some (l.drop pat.length) else none

/-- Matcher for `\s+(\d+),` at the start of `l` (the `bay` field of `physRx`):
whitespace run, then digits up to the comma. -/
def wsDigitsComma (l : List Char) : Option (List Char × List Char) :=
  match wsSkip1 l with
  | none => none
  | some r =>
    let ds := r.takeWhile Char.isDigit
    if ds.isEmpty then none
    else
      match r.dropWhile Char.isDigit with
      | ',' :: rest => some (ds, rest)
      | _ => none

/-- Model of `strconv.ParseUint(text, 10, 32)`: plain decimal digits whose value
fits in 32 bits; anything else is an error (which every caller in the
source turns into a panic). -/
def parseUint32 (l : List Char) : Option Nat :=
  if !l.isEmpty && l.all Char.isDigit && digitsToNat l < 4294967296
  then some (digitsToNat l) else none

/-- Search for the `\(sn: ([^\)]+)\)$` tail of `ctlRx`: scans for the
earliest occurrence of the literal `(sn: ` whose remainder is a
nonempty `)`-free serial closed by a final `)`; the characters skipped
over form the non-greedy group 3 (`(.*?)`), accumulated in `acc`. -/
def snScan (acc : List Char) : List Char → Option (List Char × List Char)
  | [] => none
  | c :: rest =>
    match lit ['(', 's', 'n', ':', ' '] (c :: rest) with
    | some t =>
      match closeField t with
      | some ser => some (acc.reverse, ser)
      | none => snScan (c :: acc) rest
    | none => snScan (c :: acc) rest

/-- Matcher for `ctlRx` = `^(.*?) in Slot (\d+)(.*?)\(sn: ([^\)]+)\)$`:
scans for the earliest ` in Slot ` followed by digits after which the
`(sn: …)` tail can be matched (leftmost-first semantics for the
non-greedy groups 1 and 3; the literal `(sn: ` cannot occur inside the
digit run, so taking the digit run greedily is exact).  A slot value
overflowing `ParseUint(…, 10, 32)` panics in `ControllerParse`. -/
def ctlScan (acc : List Char) : List Char → Option (List Char × Nat × List Char × List Char)
  | [] => none
  | c :: rest =>
    match lit " in Slot ".data (c :: rest) with
    | some t =>
      let ds := t.takeWhile Char.isDigit
      if ds.isEmpty then ctlScan (c :: acc) rest
      else
        match snScan [] (t.dropWhile Char.isDigit) with
        | some (g3, ser) =>
          match parseUint32 ds with
          | some slot => some (acc.reverse, slot, g3, ser)
          | none => none
        | none => ctlScan (c :: acc) rest
    | none => ctlScan (c :: acc) rest

/-- Model of `ControllerParse`: a line that does not match `ctlRx` makes the Go
code index into a nil `matched` slice (a panic), modelled as `none`.
`Arrays` and `CurrentArray` are left empty/nil here; `genmetrics`
replaces `Arrays` with the implicit unassigned array. -/
def ControllerParse (l : List Char) : Option Controller :=
  match ctlScan [] l with
  | none => none
  | some (name, slot, typ, ser) =>
    some ⟨String.mk name, String.mk typ, slot, String.mk ser, [], false⟩

/-- Matcher for `arrRx` =
`^array\s+([A-Z])\s+\(([^,]+),\s+Unused\s+Space:([^\)]+)\)$`. -/
def arrMatch (l : List Char) : Option (Char × List Char × List Char) :=
  match lit "array".data l with
  | none => none
  | some r1 =>
    match wsSkip1 r1 with
    | none => none
    | some r2 =>
      match r2 with
      | c :: r3 =>
        if 'A' ≤ c && c ≤ 'Z' then
          match wsSkip1 r3 with
          | none => none
          | some r4 =>
            match r4 with
            | '(' :: r5 =>
              match commaField r5 with
              | none => none
              | some (g2, r6) =>
                match wsSkip1 r6 with
                | none => none
                | some r7 =>
                  match lit "Unused".data r7 with
                  | none => none
                  | some r8 =>
                    match wsSkip1 r8 with
                    | none => none
                    | some r9 =>
                      match lit "Space:".data r9 with
                      | none => none
                      | some r10 =>
                        match closeField r10 with
                        | none => none
                        | some g3 => some (c, g2, g3)
            | _ => none
        else none
      | [] => none

/-- Model of `ArrayParse`: failure of `arrRx` (nil `matched` indexed) or of the
size conversion (its panic) is modelled as `none`. -/
def ArrayParse (l : List Char) : Option Array :=
  match arrMatch l with
  | none => none
  | some (id, typ, szText) =>
    match convB szText with
    | none => none
    | some sz => some ⟨id, String.mk typ, sz, []⟩

/-- Matcher for `logRx` = `^(\d+)\s+\(([^,]+),\s+([^,]+),\s+([^\)]+)\)$`
(applied after the `logicaldrive ` prefix is stripped). -/
def logMatch (l : List Char) : Option (List Char × List Char × List Char × List Char) :=
  let ds := l.takeWhile Char.isDigit
  if ds.isEmpty then none
  else
    match wsSkip1 (l.dropWhile Char.isDigit) with
    | none => none
    | some r1 =>
      match r1 with
      | '(' :: r2 =>
        match commaField r2 with
        | none => none
        | some (g2, r3) =>
          match wsThenField ',' r3 with
          | none => none
          | some (g3, r4) =>
            match wsCloseField r4 with
            | none => none
            | some g4 => some (ds, g2, g3, g4)
      | _ => none

/-- Matcher for `physRx` =
`^([^\s]+)\s+\(port\s+([^:]+):box\s+([^:]+):bay\s+(\d+),\s+([^,]+),\s+([^,]+),\s+([^\)]+)\)$`
(applied after the `physicaldrive ` prefix is stripped). -/
def physMatch (l : List Char) :
    Option (List Char × List Char × List Char × List Char × List Char × List Char × List Char) :=
  let id := l.takeWhile (fun c => !(isSpc c))
  if id.isEmpty then none
  else
    match wsSkip1 (l.dropWhile (fun c => !(isSpc c))) with
    | none => none
    | some r1 =>
      match lit "(port".data r1 with
      | none => none
      | some r2 =>
        match wsThenField ':' r2 with
        | none => none
        | some (port, r3) =>
          match lit "box".data r3 with
          | none => none
          | some r4 =>
            match wsThenField ':' r4 with
            | none => none
            | some (box, r5) =>
              match lit "bay".data r5 with
              | none => none
              | some r6 =>
                match wsDigitsComma r6 with
                | none => none
                | some (bay, r7) =>
                  match wsThenField ',' r7 with
                  | none => none
                  | some (typ, r8) =>
                    match wsThenField ',' r8 with
                    | none => none
                    | some (szT, r9) =>
                      match wsCloseField r9 with
                      | none => none
                      | some st => some (id, port, box, bay, typ, szT, st)

/-- Model of `DriveParse`.  Go slices `s[len(prefix)+1:]` unconditionally, which
panics when the line is exactly the prefix; every panic inside the
function (regexp mismatch via nil `matched`, `ParseUint` failure on
box/bay, size-conversion failure, unknown drive kind) is `none`. -/
def DriveParse (l : List Char) : Option Drive :=
  if "logicaldrive".data.isPrefixOf l then
    if l.length ≤ 12 then none
    else
      match logMatch (l.drop 13) with
      | none => none
      | some (ds, szT, raid, st) =>
        match convB szT with
        | none => none
        | some sz =>
          some ⟨String.mk ds, String.mk raid, String.mk st, sz, false, "", "", 0, 0⟩
  else if "physicaldrive".data.isPrefixOf l then
    if l.length ≤ 13 then none
    else
      match physMatch (l.drop 14) with
      | none => none
      | some (id, port, box, bay, typ, szT, st) =>
        match parseUint32 box with
        | none => none
        | some boxN =>
          match parseUint32 bay with
          | none => none
          | some bayN =>
            match convB szT with
            | none => none
            | some sz =>
              some ⟨String.mk id, "", String.mk st, sz, true, String.mk typ,
                    String.mk port, boxN, bayN⟩
  else none

/-- Model of `Controller.Describe`: `fmt.Sprintf("%s in slot %d", Name, Slot)`. -/
def Controller.Describe (c : Controller) : String :=
  c.name ++ " in slot " ++ String.mk (natToChars c.slot)

/-- Model of `Array.Describe`: `fmt.Sprintf("%c (%s)", Id, Type)`. -/
def Array.Describe (a : Array) : String :=
  String.mk [a.id] ++ " (" ++ a.type ++ ")"

/-- Model of `Drive.Describe`:
`fmt.Sprintf("%s %s (%s, %s)", driveType, Id, mode, humanized-size)`,
with `mode` the physical type or the RAID mode. -/
def Drive.Describe (d : Drive) : String :=
  (if d.physical then "physical" else "logical") ++ " " ++ d.id ++ " ("
    ++ (if d.physical then d.type else d.raidMode) ++ ", "
    ++ convertBytesToHumanReadable d.size ++ ")"

/-- Model of `strings.Split(text, "\n")` on character lists: always returns at
least one (possibly empty) piece. -/
def splitOnNl : List Char → List (List Char)
  | [] => [[]]
  | c :: rest =>
    if c = '\n' then [] :: splitOnNl rest
    else
      match splitOnNl rest with
      | [] => [[c]]
      | h :: t => (c :: h) :: t

/-- The leading-space count of a line: `genmetrics` counts only the
character `' '` (not tabs). -/
def leadingSpaces (l : List Char) : Nat :=
  (l.takeWhile (fun c => c = ' ')).length

/-- Fatal conditions of `genmetrics` (all are panics in Go, one
constructor per panic site; `badDepth` is the
`"cannot parse line %d with %d trailing spaces"` default case,
recording the offending line number and depth). -/
inductive ParseError where
  | badDepth (lineNo depth : Nat) (line : List Char)
  | ctlNoMatch (lineNo : Nat) (line : List Char)
  | arrNoMatch (lineNo : Nat) (content : List Char)
  | drvNoMatch (lineNo : Nat) (content : List Char)
  | nilController (lineNo : Nat)
  | nilCurrentArray (lineNo : Nat)
deriving DecidableEq, Repr

/-- The implicit array `Array{Id: 'U', Type: "unassigned"}` seeded into
every freshly parsed controller (zero values for the other fields). -/
def unassignedArray : Array := ⟨'U', "unassigned", 0, []⟩

/-- Append a drive to the last array of the list — `CurrentArray`
always points at the last element of `Arrays`, so
`CurrentArray.Add(d)` appends to it. -/
def addDriveLast : List Array → Drive → List Array
  | [], _ => []
  | [a], d => [{ a with drives := a.drives ++ [d] }]
  | a :: b :: t, d => a :: addDriveLast (b :: t) d

/-- One iteration of the line loop of `genmetrics`.  The state is the
`controllers` slice in reverse (head = `currentController`, the one
mutations target).  Branch order mirrors Go evaluation order: at depth
6 a nil `currentController` panics while evaluating the receiver
`currentController.CurrentArray`, next the argument `DriveParse(...)`
is evaluated (and may panic), and only then does `Add` on a nil
`CurrentArray` panic; at depth 3 the argument `ArrayParse(...)` is
evaluated (and may panic) before `Add` dereferences a nil
`currentController`. -/
def stepLine (lineNo : Nat) (line : List Char) (st : List Controller) :
    Except ParseError (List Controller) :=
  if line.isEmpty then .ok st
  else
    let d := leadingSpaces line
    if d = 0 then
      match ControllerParse line with
      | none => .error (.ctlNoMatch lineNo line)
      | some c => .ok ({ c with arrays := [unassignedArray] } :: st)
    else if d = 3 then
      let content := line.drop 3
      if "array".data.isPrefixOf content then
        match ArrayParse content with
        | none => .error (.arrNoMatch lineNo content)
        | some a =>
          match st with
          | [] => .error (.nilController lineNo)
          | c :: rest =>
            .ok ({ c with arrays := c.arrays ++ [a], hasCurrent := true } :: rest)
      else .ok st
    else if d = 6 then
      match st with
      | [] => .error (.nilController lineNo)
      | c :: rest =>
        match DriveParse (line.drop 6) with
        | none => .error (.drvNoMatch lineNo (line.drop 6))
        | some dr =>
          if c.hasCurrent then
            .ok ({ c with arrays := addDriveLast c.arrays dr } :: rest)
          else .error (.nilCurrentArray lineNo)
    else .error (.badDepth lineNo d line)

/-- The line loop of `genmetrics`: `n` is the 0-based index (Go's
`lineNo` from `range`, counting empty lines too). -/
def runLines : List (List Char) → Nat → List Controller →
    Except ParseError (List Controller)
  | [], _, st => .ok st
  | l :: ls, n, st =>
    match stepLine n l st with
    | .error e => .error e
    | .ok st2 => runLines ls (n + 1) st2

/-- The result struct `Parsed` (`Labels` and `Controller` fields). -/
structure Parsed where
  labels : List (List String)
  controllers : List Controller
deriving DecidableEq, Repr

/-- The flattening loop at the end of `genmetrics`: one
`[controller-describe, array-describe, drive-describe, raw-status]`
label row per drive, in report order. -/
def mkParsed (stRev : List Controller) : Parsed :=
  let cs := stRev.reverse
  ⟨cs.flatMap (fun c => c.arrays.flatMap (fun a => a.drives.map (fun dr =>
      [c.Describe, a.Describe, dr.Describe, dr.status]))), cs⟩

/-- Model of `genmetrics`: split the report into lines, run the indentation
state machine, then flatten.  A panic anywhere aborts the whole parse
with no partial result. -/
def genmetrics (s : String) : Except ParseError Parsed :=
  match runLines (splitOnNl s.data) 0 [] with
  | .error e => .error e
  | .ok st => .ok (mkParsed st)

/-- The status lookup tables (`map[string]float64` literals in the
source; all the codes are small integers, so they are carried as `Nat`
here).  Go map lookup order is irrelevant: the keys are distinct. -/
def drive_status_id : List (String × Nat) := [("OK", 0), ("undefined", 99)]

/-- Controller-status table `ctrlstat_id`. -/
def ctrlstat_id : List (String × Nat) := [("OK", 0), ("undefined", 99)]

/-- Surface-scan-mode table `scan_id`. -/
def scan_id : List (String × Nat) := [("Idle", 0), ("undefined", 99)]

/-- Cache-status table `cache_id`. -/
def cache_id : List (String × Nat) := [("OK", 0), ("undefined", 99)]

/-- Battery-status table `batstat_id`. -/
def batstat_id : List (String × Nat) :=
  [("OK", 0), ("Recharging", 1), ("Failed (Replace Batteries)", 10), ("undefined", 99)]

/-- Model of the shared lookup shape
`if _, ok := tbl[k]; ok ... else cstat = tbl["undefined"]`
— the shared lookup-with-fallback shape of the `Collect` switch arms.
(`getD 0` models Go's zero value for a missing map key; `"undefined"`
is present in every table, with value 99.) -/
def lookupOr (tbl : List (String × Nat)) (k : String) : Nat :=
  match tbl.lookup k with
  | some v => v
  | none => (tbl.lookup "undefined").getD 0

/-- The text before the first comma of `s` (`clabel[0:strings.Index(clabel, ",")]`;
the comma is ASCII, so the byte slice is exactly the character prefix). -/
def beforeComma (s : String) : String :=
  String.mk (s.data.takeWhile (fun c => c ≠ ','))

/-- The drive-status normalization inlined in `collector.Collect`:
start from `drive_status_id["undefined"]`, strip a trailing
comma-qualifier if a comma is present, overwrite with the table value
when the (stripped) label is a key. -/
def collectDriveStatusCode (clabel : String) : Nat :=
  let cstat := (drive_status_id.lookup "undefined").getD 0
  let c2 := if clabel.data.contains ',' then beforeComma clabel else clabel
  match drive_status_id.lookup c2 with
  | some v => v
  | none => cstat

/-- One emitted metric: the `prometheus.Desc` name, the gauge value and
the label values, in order.  (Values are exact small naturals in every
reachable case; Go carries them as `float64`.) -/
structure Metric where
  desc : String
  value : Nat
  labels : List String
deriving DecidableEq, Repr

/-- The `ArrStat{name, ret}` pairs produced by `ArrayStatus` (the
status observations scanned out of `ctrl slot=N show`; obtaining them
runs the external command, so they are a parameter here). -/
structure ArrStat where
  name : String
  ret : String
deriving DecidableEq, Repr

/-- Model of `strconv.ParseFloat(statone.ret, 32)` in the
`cachetotal`/`cachefree` arms.  The regexps hand those arms pure digit
strings (`(\d+)` before ` MB`), on which the parse is exact for values
below 2^24 (cache sizes in MB are far below); on a parse failure Go
keeps the zero value. -/
def parseFloatDigits (s : String) : Nat :=
  if !s.data.isEmpty && s.data.all Char.isDigit then digitsToNat s.data else 0

/-- One iteration of the per-controller status loop in
`collector.Collect`.  Note: the Go source declares
`var lastbat string; lastbat = "0"` INSIDE the loop body, so `lastbat`
is re-initialized to `"0"` on every iteration; the assignment
`lastbat = statone.ret` in the `batcount` arm (followed by `continue`)
therefore never survives to a later iteration, and the `batstat` arm
always reads the fresh `"0"`. -/
def collectOne (ctrlName : String) (statone : ArrStat) : Option Metric :=
  let lastbat := "0"
  match statone.name with
  | "status" =>
    some ⟨"hpraid_ctrl_status", lookupOr ctrlstat_id statone.ret, [ctrlName, statone.ret]⟩
  | "scan" =>
    some ⟨"hpraid_ctrl_scan", lookupOr scan_id statone.ret, [ctrlName, statone.ret]⟩
  | "cache" =>
    some ⟨"hpraid_ctrl_cache", lookupOr cache_id statone.ret, [ctrlName, statone.ret]⟩
  | "cachetotal" =>
    some ⟨"hpraid_ctrl_cache_total", parseFloatDigits statone.ret, [ctrlName, statone.ret]⟩
  | "cachefree" =>
    some ⟨"hpraid_ctrl_cache_free", parseFloatDigits statone.ret, [ctrlName, statone.ret]⟩
  | "batcount" => none
  | "batstat" =>
    some ⟨"hpraid_ctrl_battery", lookupOr batstat_id statone.ret,
          [ctrlName, lastbat, statone.ret]⟩
  | _ => none

/-- The per-controller status loop of `collector.Collect` over a
controller's observation sequence. -/
def collectCtrlStats (ctrlName : String) (stats : List ArrStat) : List Metric :=
  stats.filterMap (collectOne ctrlName)

/-- The drive-row loop of `collector.Collect`: one `hpraid_diskstate`
gauge per flattened label row, valued by the normalized drive status of
`label[3]` (rows always carry exactly 4 labels). -/
def driveRows (gm : Parsed) : List Metric :=
  gm.labels.map (fun label =>
    ⟨"hpraid_diskstate", collectDriveStatusCode (label.getD 3 ""),
     [label.getD 0 "", label.getD 1 "", label.getD 2 "", label.getD 3 ""]⟩)

/-- Model of `collector.Collect`.  `hpinfo` is the outcome of `GetHPInfo()`
(running the external command); `stats` gives the `ArrayStatus`
observations per controller slot.  On a command error exactly one
all-`"NULL"` sentinel row with value 0 is emitted and nothing is
raised; a `genmetrics` panic, by contrast, propagates (`.error`). -/
def Collect (hpinfo : Except String String) (stats : Nat → List ArrStat) :
    Except ParseError (List Metric) :=
  match hpinfo with
  | .error _ => .ok [⟨"hpraid_diskstate", 0, ["NULL", "NULL", "NULL", "NULL"]⟩]
  | .ok info =>
    match genmetrics info with
    | .error e => .error e
    | .ok gm =>
      .ok (driveRows gm
           ++ gm.controllers.flatMap (fun c => collectCtrlStats c.name (stats c.slot)))

/-- Whether an `Except` computation completed successfully. -/
def exceptIsOk : Except ParseError Parsed → Bool
  | .ok _ => true
  | .error _ => false

/-- The construction invariant every parsed controller satisfies: its
array sequence starts with the implicit unassigned array (never touched
afterwards), and once `CurrentArray` is set at least one explicit array
follows it. -/
def ctlInv (c : Controller) : Prop :=
  ∃ tl, c.arrays = unassignedArray :: tl ∧ (c.hasCurrent = true → tl ≠ [])

/-- The spec's single-controller sample report, verbatim (the array
header carries `Unused Space: 0  B`). -/
def sampleSpec : String :=
  "Smart Array P420i in Slot 0 (sn: ABC123)\n   array A (SAS, Unused Space: 0  B)\n      logicaldrive 1 (279 GB, RAID 1, OK)\n      physicaldrive 1I:1:1 (port 1I:box 1:bay 1, SAS, 300 GB, OK)"

/-- The spec's sample report with the unused-space field written with a
unit the size grammar accepts (`0 KB` instead of `0  B`). -/
def sampleOk : String :=
  "Smart Array P420i in Slot 0 (sn: ABC123)\n   array A (SAS, Unused Space: 0 KB)\n      logicaldrive 1 (279 GB, RAID 1, OK)\n      physicaldrive 1I:1:1 (port 1I:box 1:bay 1, SAS, 300 GB, OK)"

/-- A report whose single controller block mentions array `A` twice. -/
def dupArrayReport : String :=
  "A in Slot 0 (sn: X)\n   array A (SAS, Unused Space: 10 KB)\n   array A (SAS, Unused Space: 10 KB)"

/-- A report with a drive line directly under a controller header,
before any array header. -/
def orphanDriveReport : String :=
  "A in Slot 0 (sn: X)\n      physicaldrive 1I:1:1 (port 1I:box 1:bay 1, SAS, 300 GB, OK)"

/-- A single-controller report with no array lines at all. -/
def bareControllerReport : String := "A in Slot 0 (sn: X)"

/-- If an emitted status metric is a battery metric, its `battery_id`
label (index 1) is the loop-local default `"0"`. -/
theorem collectOne_battery_label (n : String) (s : ArrStat) (m : Metric)
    (h : collectOne n s = some m) (hd : m.desc = "hpraid_ctrl_battery") :
    m.labels.getD 1 "" = "0" := by
  unfold collectOne at h
  split at h <;>
    first
      | exact Option.noConfusion h
      | (injection h with h; subst h; simp_all)

/-- C1.  The claim says each battery-status observation carries the
most recently observed battery count as its battery-id label.  The code
never does: `lastbat` is declared inside the loop, so the label is
always the default `"0"`.  First conjunct: the failing input (a battery
count of `"2"` followed by a battery status) still yields battery-id
`"0"`; second conjunct: every battery metric the loop can ever emit has
battery-id `"0"`. -/
theorem c1_battery_label_bug :
    collectCtrlStats "ctl" [⟨"batcount", "2"⟩, ⟨"batstat", "OK"⟩]
      = [⟨"hpraid_ctrl_battery", 0, ["ctl", "0", "OK"]⟩]
    ∧ ∀ (n : String) (stats : List ArrStat),
        ((collectCtrlStats n stats).filter
            (fun m => m.desc == "hpraid_ctrl_battery")).all
          (fun m => m.labels.getD 1 "" == "0") = true := by
  refine ⟨rfl, fun n stats => ?_⟩
  induction stats with
  | nil => rfl
  | cons s t ih =>
    simp only [collectCtrlStats, List.filterMap_cons] at ih ⊢
    cases hc : collectOne n s with
    | none => exact ih
    | some m =>
      by_cases hd : m.desc = "hpraid_ctrl_battery"
      · have hb : (m.desc == "hpraid_ctrl_battery") = true := by simp [hd]
        have hlab : (m.labels.getD 1 "" == "0") = true := by
          rw [collectOne_battery_label n s m hc hd]; rfl
        simp only [List.filter_cons, hb, if_true, List.all_cons, hlab, ih,
          Bool.and_self]
      · have hb : (m.desc == "hpraid_ctrl_battery") = false := by simp [hd]
        simp only [List.filter_cons, hb, Bool.false_eq_true, if_false]
        exact ih

/-- C2.  The claim (and spec) say `parseSize("5")` returns 5.  In the
code `szRx` demands at least one whitespace character after the number,
so `"5"` does not match at all (`panic("no match for 5")`); and even a
padded `"5 "` matches with an empty unit group, upon which
`matched[5][0]` indexes an empty string and panics.  A bare number is
never accepted. -/
theorem c2_bare_number_rejected :
    convertHumanReadableToBytes "5" = none
    ∧ convertHumanReadableToBytes "5 " = none := ⟨rfl, rfl⟩

/-- C4.  The size parser applies decimal 1000-based multipliers per
unit step (K = 10^3, M = 10^6, G = 10^9, T = 10^12): on any input whose
match has an integer mantissa and a unit, the result is exactly
mantissa times multiplier, and `parseSize("279 GB")` is exactly
279000000000. -/
theorem c4_decimal_multipliers :
    (∀ (s : String) (m : SzMatch) (u : Char) (mul : Nat),
        szMatch s.data = some m → m.unit = some u → mulOf u = some mul →
        m.fracDigits = [] →
        convertHumanReadableToBytes s = some (digitsToNat m.intDigits * mul))
    ∧ mulOf 'K' = some (10 ^ 3) ∧ mulOf 'M' = some (10 ^ 6)
    ∧ mulOf 'G' = some (10 ^ 9) ∧ mulOf 'T' = some (10 ^ 12)
    ∧ convertHumanReadableToBytes "279 GB" = some 279000000000 := by
  refine ⟨fun s m u mul h1 h2 h3 h4 => ?_, by decide, by decide, by decide, by decide, rfl⟩
  unfold convertHumanReadableToBytes convB
  rw [h1]
  simp [h2, h3, h4, digitsToNat]

/-- Witness for C4 at the spec's example `"279 GB"`. -/
theorem c4_decimal_multipliers_witness :
    szMatch "279 GB".data = some ⟨['2', '7', '9'], [], some 'G'⟩
    ∧ convertHumanReadableToBytes "279 GB" = some 279000000000 :=
  ⟨rfl, c4_decimal_multipliers.1 "279 GB" ⟨['2', '7', '9'], [], some 'G'⟩ 'G'
      1000000000 rfl rfl rfl rfl⟩

/-- C8.  When obtaining Report A fails, `Collect` emits exactly one
sentinel row with all four labels `"NULL"` and value 0, and returns
normally (no error crosses the metrics boundary). -/
theorem c8_sentinel_row (err : String) (stats : Nat → List ArrStat) :
    Collect (.error err) stats
      = .ok [⟨"hpraid_diskstate", 0, ["NULL", "NULL", "NULL", "NULL"]⟩] := rfl

/-- Counterexample for C6: on the spec's sample report, taken verbatim,
parsing does not produce the claimed tree at all — the array header's
`Unused Space: 0  B` field has a bare `B` unit, which `szRx` cannot
match (its optional unit group only allows `KB`/`MB`/`GB`/`TB`), so
`convertHumanReadableToBytes` panics inside `ArrayParse` and the whole
parse aborts at line 1. -/
theorem c6_counterexample :
    genmetrics sampleSpec
      = .error (.arrNoMatch 1 "array A (SAS, Unused Space: 0  B)".data) := rfl

/-- C6 as amended: with the sample's unused-space field written with a
supported unit (`0 KB`), parsing yields exactly one controller (slot 0,
serial `"ABC123"`) owning exactly two arrays — the implicit `'U'`
(unassigned) array with no drives plus `'A'` with exactly two drives —
and the flattened output has exactly two rows, both of which `Collect`
emits with normalized status code 0. -/
theorem c6_amended :
    (genmetrics sampleOk).map (fun p =>
        (p.labels.length,
         p.controllers.map (fun c =>
           (c.name, c.slot, c.serialNumber,
            c.arrays.map (fun a => (a.id, a.drives.length))))))
      = .ok (2, [("Smart Array P420i", 0, "ABC123", [('U', 0), ('A', 2)])])
    ∧ (Collect (.ok sampleOk) (fun _ => [])).map (fun ms =>
          ms.map (fun m => (m.desc, m.value)))
      = .ok [("hpraid_diskstate", 0), ("hpraid_diskstate", 0)] := ⟨rfl, rfl⟩

/-- C7.  Drive-status normalization looks up only the text before the
first comma and falls back to the `"undefined"` code 99 when that
prefix is not in the table, never failing: for every raw string the
code equals the table lookup of the pre-comma prefix with default 99;
`"OK, spun down"` yields 0 and `"Frobnicating"` yields 99. -/
theorem c7_drive_status_normalization :
    (∀ s : String,
        collectDriveStatusCode s
          = ((drive_status_id.lookup (beforeComma s)).getD 99))
    ∧ collectDriveStatusCode "OK, spun down" = 0
    ∧ collectDriveStatusCode "Frobnicating" = 99 := by
  refine ⟨fun s => ?_, rfl, rfl⟩
  unfold collectDriveStatusCode
  by_cases h : s.data.contains ','
  · rw [if_pos h]
    cases hk : drive_status_id.lookup (beforeComma s) with
    | none => simp [hk]; rfl
    | some v => simp [hk]
  · rw [if_neg h]
    have hb : beforeComma s = s := by
      unfold beforeComma
      have hall : s.data.takeWhile (fun c => c ≠ ',') = s.data := by
        rw [List.takeWhile_eq_self_iff]
        intro c hc
        simp only [ne_eq, decide_eq_true_eq]
        intro he
        apply h
        rw [List.contains_eq_any_beq]
        exact List.any_eq_true.mpr ⟨c, hc, by simp [he]⟩
      rw [hall]
    rw [hb]
    cases hk : drive_status_id.lookup s with
    | none => simp [hk]; rfl
    | some v => simp [hk]

/-- Counterexample for C3: at the spec's own example, `parseSize`
yields 279000000000 and `formatSize` renders it as `"279GB"` — with no
whitespace between number and unit — which `parseSize` then rejects
(`szRx` requires `\s+` there), so the round trip does not succeed at
all, let alone within a rounding tolerance. -/
theorem c3_counterexample :
    convertHumanReadableToBytes "279 GB" = some 279000000000
    ∧ convertBytesToHumanReadable 279000000000 = "279GB"
    ∧ convertHumanReadableToBytes "279GB" = none := ⟨rfl, rfl, rfl⟩

/-- Counterexample for C9: a report repeating `array A` inside one
controller block parses successfully, and the controller's array
identifier sequence is `['U', 'A', 'A']` — not unique. -/
theorem c9_counterexample :
    (genmetrics dupArrayReport).map (fun p =>
        p.controllers.map (fun c => c.arrays.map (fun a => a.id)))
      = .ok [['U', 'A', 'A']]
    ∧ ¬ List.Nodup ['U', 'A', 'A'] := ⟨rfl, by decide⟩

/-- Splitting the line loop at a prefix. -/
theorem runLines_append (xs ys : List (List Char)) (n : Nat) (st : List Controller) :
    runLines (xs ++ ys) n st
      = match runLines xs n st with
        | .error e => .error e
        | .ok st2 => runLines ys (n + xs.length) st2 := by
  induction xs generalizing n st with
  | nil => simp [runLines]
  | cons l ls ih =>
    cases hs : stepLine n l st with
    | error e => simp only [List.cons_append, runLines, hs]
    | ok st2 =>
      simp only [List.cons_append, runLines, hs, List.append_eq, ih]
      cases runLines ls (n + 1) st2 with
      | error e => rfl
      | ok st3 =>
        simp only [List.length_cons]
        congr 1
        omega

/-- C5.  If the report contains a non-empty line whose leading-space
count is not 0, 3 or 6, and every line before it is processed without a
panic, then the whole parse aborts with the structural error recording
exactly that line's number and observed depth — no partial tree or
flattened rows are produced (the `.error` result carries nothing
else). -/
theorem c5_bad_depth_fatal (s : String) (i : Nat) (line : List Char)
    (st : List Controller)
    (hline : (splitOnNl s.data)[i]? = some line)
    (hne : line ≠ [])
    (hd : ¬(leadingSpaces line = 0 ∨ leadingSpaces line = 3 ∨ leadingSpaces line = 6))
    (hpre : runLines ((splitOnNl s.data).take i) 0 [] = .ok st) :
    genmetrics s = .error (.badDepth i (leadingSpaces line) line) := by
  obtain ⟨hlt, hget⟩ := List.getElem?_eq_some.mp hline
  have hsplit : splitOnNl s.data
      = (splitOnNl s.data).take i ++ line :: (splitOnNl s.data).drop (i + 1) := by
    conv_lhs => rw [← List.take_append_drop i (splitOnNl s.data)]
    rw [List.drop_eq_getElem_cons hlt, hget]
  have hlen : ((splitOnNl s.data).take i).length = i := by
    rw [List.length_take]
    omega
  have hstep : stepLine i line st = .error (.badDepth i (leadingSpaces line) line) := by
    unfold stepLine
    rw [if_neg (by simpa using hne)]
    rw [if_neg (fun h => hd (Or.inl h)), if_neg (fun h => hd (Or.inr (Or.inl h))),
        if_neg (fun h => hd (Or.inr (Or.inr h)))]
  unfold genmetrics
  rw [hsplit, runLines_append, hpre, hlen]
  simp only [runLines, Nat.zero_add, hstep]

/-- Witness for C5 at the two-space line `"  x"`. -/
theorem c5_bad_depth_fatal_witness :
    (splitOnNl "  x".data)[0]? = some "  x".data
    ∧ "  x".data ≠ []
    ∧ ¬(leadingSpaces "  x".data = 0 ∨ leadingSpaces "  x".data = 3
        ∨ leadingSpaces "  x".data = 6)
    ∧ genmetrics "  x" = .error (.badDepth 0 (leadingSpaces "  x".data) "  x".data) :=
  ⟨rfl, by decide, by decide,
   c5_bad_depth_fatal "  x" 0 "  x".data [] rfl (by decide) (by decide) rfl⟩

/-- Lemma: `ControllerParse` always leaves `CurrentArray` nil. -/
theorem ControllerParse_hasCurrent (l : List Char) (c : Controller)
    (h : ControllerParse l = some c) : c.hasCurrent = false := by
  unfold ControllerParse at h
  split at h
  · exact Option.noConfusion h
  · injection h with h
    subst h
    rfl

/-- Appending a drive never touches any array but the last one. -/
theorem addDriveLast_cons (a : Array) (l : List Array) (d : Drive) (h : l ≠ []) :
    addDriveLast (a :: l) d = a :: addDriveLast l d := by
  cases l with
  | nil => exact absurd rfl h
  | cons b t => rfl

/-- Appending a drive preserves nonemptiness. -/
theorem addDriveLast_ne_nil (l : List Array) (d : Drive) (h : l ≠ []) :
    addDriveLast l d ≠ [] := by
  cases l with
  | nil => exact absurd rfl h
  | cons b t => cases t <;> simp [addDriveLast]

/-- One parser step preserves the controller invariant. -/
theorem stepLine_inv (n : Nat) (l : List Char) (st st2 : List Controller)
    (h : stepLine n l st = .ok st2) (hinv : ∀ c ∈ st, ctlInv c) :
    ∀ c ∈ st2, ctlInv c := by
  unfold stepLine at h
  by_cases hemp : l.isEmpty
  · simp only [hemp, if_true, Except.ok.injEq] at h
    subst h
    exact hinv
  · simp only [hemp, Bool.false_eq_true, if_false] at h
    by_cases h0 : leadingSpaces l = 0
    · simp only [h0, if_true] at h
      cases hc : ControllerParse l with
      | none => simp only [hc] at h; exact Except.noConfusion h
      | some c0 =>
        simp only [hc, Except.ok.injEq] at h
        subst h
        intro c hc2
        cases hc2 with
        | head =>
          exact ⟨[], rfl, fun habs => by
            simp [ControllerParse_hasCurrent l c0 hc] at habs⟩
        | tail _ hmem => exact hinv c hmem
    · simp only [h0, if_false] at h
      by_cases h3 : leadingSpaces l = 3
      · simp only [h3, if_true] at h
        by_cases ha : "array".data.isPrefixOf (l.drop 3)
        · simp only [ha, if_true] at h
          cases har : ArrayParse (l.drop 3) with
          | none => simp only [har] at h; exact Except.noConfusion h
          | some a =>
            simp only [har] at h
            cases st with
            | nil => exact Except.noConfusion h
            | cons c rest =>
              simp only [Except.ok.injEq] at h
              subst h
              intro c2 hc2
              cases hc2 with
              | head =>
                obtain ⟨tl, htl, _⟩ := hinv c (List.mem_cons_self c rest)
                exact ⟨tl ++ [a], by simp [htl], fun _ => by simp⟩
              | tail _ hmem => exact hinv c2 (List.mem_cons_of_mem c hmem)
        · simp only [ha, Bool.false_eq_true, if_false, Except.ok.injEq] at h
          subst h
          exact hinv
      · simp only [h3, if_false] at h
        by_cases h6 : leadingSpaces l = 6
        · simp only [h6, if_true] at h
          cases st with
          | nil => exact Except.noConfusion h
          | cons c rest =>
            cases hdr : DriveParse (l.drop 6) with
            | none => simp only [hdr] at h; exact Except.noConfusion h
            | some dr =>
              simp only [hdr] at h
              by_cases hcur : c.hasCurrent = true
              · simp only [hcur, if_true, Except.ok.injEq] at h
                subst h
                intro c2 hc2
                cases hc2 with
                | head =>
                  obtain ⟨tl, htl, hne⟩ := hinv c (List.mem_cons_self c rest)
                  have htlne : tl ≠ [] := hne hcur
                  refine ⟨addDriveLast tl dr, ?_,
                    fun _ => addDriveLast_ne_nil tl dr htlne⟩
                  simp [htl, addDriveLast_cons unassignedArray tl dr htlne, hcur]
                | tail _ hmem => exact hinv c2 (List.mem_cons_of_mem c hmem)
              · simp [hcur] at h
        · simp [h6] at h

/-- The line loop preserves the controller invariant. -/
theorem runLines_inv (ls : List (List Char)) (n : Nat) (st st2 : List Controller)
    (h : runLines ls n st = .ok st2) (hinv : ∀ c ∈ st, ctlInv c) :
    ∀ c ∈ st2, ctlInv c := by
  induction ls generalizing n st with
  | nil =>
    simp only [runLines] at h
    injection h with h
    subst h
    exact hinv
  | cons l t ih =>
    simp only [runLines] at h
    cases hs : stepLine n l st with
    | error e => rw [hs] at h; exact Except.noConfusion h
    | ok stMid =>
      rw [hs] at h
      exact ih (n + 1) stMid h (stepLine_inv n l st stMid hs hinv)

/-- Every controller of a completed parse satisfies the invariant. -/
theorem genmetrics_inv (s : String) (p : Parsed) (h : genmetrics s = .ok p) :
    ∀ c ∈ p.controllers, ctlInv c := by
  unfold genmetrics at h
  cases hr : runLines (splitOnNl s.data) 0 [] with
  | error e => rw [hr] at h; exact Except.noConfusion h
  | ok st =>
    rw [hr] at h
    injection h with h
    subst h
    intro c hc
    have hc2 : c ∈ st := by
      have : c ∈ st.reverse := hc
      exact List.mem_reverse.mp this
    exact runLines_inv (splitOnNl s.data) 0 [] st hr (by simp) c hc2

/-- C10.  First conjunct: when a non-empty depth-6 line is reached
with the current controller's current-array cursor still unset (no
`array` header parsed yet for it), the parse cannot complete — either
the drive line fails to parse (panic) or the nil `CurrentArray` is
dereferenced (panic).  Second conjunct: consequently every controller
of a completed parse still has the pristine implicit unassigned array
(id `'U'`, type `"unassigned"`, no drives) at the head of its array
sequence. -/
theorem c10_unassigned_has_no_drives :
    (∀ (s : String) (i : Nat) (line : List Char) (c : Controller)
        (rest : List Controller),
        (splitOnNl s.data)[i]? = some line → line ≠ [] →
        leadingSpaces line = 6 →
        runLines ((splitOnNl s.data).take i) 0 [] = .ok (c :: rest) →
        c.hasCurrent = false →
        exceptIsOk (genmetrics s) = false)
    ∧ (∀ (s : String) (p : Parsed), genmetrics s = .ok p →
        ∀ c ∈ p.controllers, c.arrays.head? = some unassignedArray) := by
  constructor
  · intro s i line c rest hline hne h6 hpre hcur
    obtain ⟨hlt, hget⟩ := List.getElem?_eq_some.mp hline
    have hsplit : splitOnNl s.data
        = (splitOnNl s.data).take i ++ line :: (splitOnNl s.data).drop (i + 1) := by
      conv_lhs => rw [← List.take_append_drop i (splitOnNl s.data)]
      rw [List.drop_eq_getElem_cons hlt, hget]
    have hlen : ((splitOnNl s.data).take i).length = i := by
      rw [List.length_take]
      omega
    have hne6 : ¬(leadingSpaces line = 0) := by rw [h6]; decide
    have hne3 : ¬(leadingSpaces line = 3) := by rw [h6]; decide
    have hstep : ∃ e, stepLine i line (c :: rest) = .error e := by
      unfold stepLine
      rw [if_neg (by simpa using hne), if_neg hne6, if_neg hne3, if_pos h6]
      cases DriveParse (line.drop 6) with
      | none => exact ⟨_, rfl⟩
      | some dr => exact ⟨.nilCurrentArray i, by simp [hcur]⟩
    obtain ⟨e, he⟩ := hstep
    unfold genmetrics
    rw [hsplit, runLines_append, hpre, hlen]
    simp only [runLines, Nat.zero_add, he]
    rfl
  · intro s p h c hc
    obtain ⟨tl, htl, _⟩ := genmetrics_inv s p h c hc
    rw [htl]
    rfl

/-- Witness for C10: the drive-directly-under-controller report fails
to parse. -/
theorem c10_unassigned_has_no_drives_witness :
    exceptIsOk (genmetrics orphanDriveReport) = false :=
  c10_unassigned_has_no_drives.1 orphanDriveReport 1
    "      physicaldrive 1I:1:1 (port 1I:box 1:bay 1, SAS, 300 GB, OK)".data
    ⟨"A", " ", 0, "X", [unassignedArray], false⟩ [] rfl (by decide) rfl rfl rfl

/-- C9 as amended: the parser does not enforce uniqueness of array
identifiers (see the counterexample, where a repeated `array A` yields
`['U', 'A', 'A']`).  What does hold for every completed parse: each
controller's identifier sequence starts with the sentinel `'U'` of the
implicit unassigned array, and it is duplicate-free exactly when the
identifiers of the explicitly parsed arrays (the tail) are pairwise
distinct and none of them is `'U'`. -/
theorem c9_array_id_uniqueness (s : String) (p : Parsed)
    (h : genmetrics s = .ok p) :
    ∀ c ∈ p.controllers,
      (c.arrays.map (fun a => a.id)).head? = some 'U'
      ∧ ((c.arrays.map (fun a => a.id)).Nodup ↔
          ((c.arrays.map (fun a => a.id)).tail.Nodup
            ∧ 'U' ∉ (c.arrays.map (fun a => a.id)).tail)) := by
  intro c hc
  obtain ⟨tl, htl, _⟩ := genmetrics_inv s p h c hc
  rw [htl]
  refine ⟨rfl, ?_⟩
  rw [List.map_cons, List.tail_cons, List.nodup_cons]
  exact and_comm

/-- Witness for C9's amended theorem on a bare single-controller
report. -/
theorem c9_array_id_uniqueness_witness :
    genmetrics bareControllerReport
      = .ok ⟨[], [⟨"A", " ", 0, "X", [unassignedArray], false⟩]⟩
    ∧ (([unassignedArray].map (fun a => a.id)).head? = some 'U'
       ∧ (([unassignedArray].map (fun a => a.id)).Nodup ↔
           (([unassignedArray].map (fun a => a.id)).tail.Nodup
             ∧ 'U' ∉ ([unassignedArray].map (fun a => a.id)).tail))) :=
  ⟨rfl,
   c9_array_id_uniqueness bareControllerReport
     ⟨[], [⟨"A", " ", 0, "X", [unassignedArray], false⟩]⟩ rfl
     ⟨"A", " ", 0, "X", [unassignedArray], false⟩ (List.mem_singleton.mpr rfl)⟩

/-- Lemma: `fracSplit` only ever discards characters from the front. -/
theorem fracSplit_sublist (l fr r2 : List Char) (h : fracSplit l = some (fr, r2)) :
    r2.Sublist l := by
  unfold fracSplit at h
  split at h
  case h_1 rest =>
    by_cases hf : (rest.takeWhile Char.isDigit).isEmpty
    · simp only [hf, if_true] at h
      exact Option.noConfusion h
    · simp only [hf, Bool.false_eq_true, if_false, Option.some.injEq,
        Prod.mk.injEq] at h
      rw [← h.2]
      exact (List.dropWhile_sublist _).trans (List.sublist_cons_self _ _)
  case h_2 =>
    simp only [Option.some.injEq, Prod.mk.injEq] at h
    rw [← h.2]

/-- Any string `szRx` accepts contains at least one whitespace
character (the mandatory `\s+` between number and unit). -/
theorem szMatch_has_space (l : List Char) (m : SzMatch)
    (h : szMatch l = some m) : ∃ c ∈ l, isSpc c = true := by
  unfold szMatch at h
  by_cases hds : ((l.dropWhile isSpc).takeWhile Char.isDigit).isEmpty
  · simp only [hds, if_true] at h
    exact Option.noConfusion h
  · simp only [hds, Bool.false_eq_true, if_false] at h
    cases hfs : fracSplit ((l.dropWhile isSpc).dropWhile Char.isDigit) with
    | none =>
      simp only [hfs] at h
      exact Option.noConfusion h
    | some pr =>
      obtain ⟨fr, r2⟩ := pr
      simp only [hfs] at h
      by_cases hsp : (r2.takeWhile isSpc).isEmpty
      · simp only [hsp, if_true] at h
        exact Option.noConfusion h
      · have hr2 : r2.Sublist l := by
          have h1 : r2.Sublist ((l.dropWhile isSpc).dropWhile Char.isDigit) :=
            fracSplit_sublist _ _ _ hfs
          have h2 : ((l.dropWhile isSpc).dropWhile Char.isDigit).Sublist
              (l.dropWhile isSpc) := List.dropWhile_sublist _
          have h3 : (l.dropWhile isSpc).Sublist l := List.dropWhile_sublist _
          exact (h1.trans h2).trans h3
        cases r2 with
        | nil => simp at hsp
        | cons c t =>
          by_cases hc : isSpc c = true
          · exact ⟨c, List.Sublist.mem (List.mem_cons_self c t) hr2, hc⟩
          · exfalso
            apply hsp
            simp [List.takeWhile_cons, hc]

/-- Decimal digit characters are not whitespace. -/
theorem isSpc_digitChar (d : Nat) : isSpc (digitChar d) = false := by
  unfold digitChar
  have h : d % 10 < 10 := Nat.mod_lt d (by decide)
  set k := d % 10 with hk
  interval_cases k <;> decide

/-- Every character `natToCharsAux` produces is a digit character or
comes from the accumulator. -/
theorem natToCharsAux_mem (f : Nat) : ∀ (n : Nat) (acc : List Char) (c : Char),
    c ∈ natToCharsAux f n acc → (∃ d, c = digitChar d) ∨ c ∈ acc := by
  induction f with
  | zero => exact fun n acc c h => Or.inr h
  | succ f ih =>
    intro n acc c h
    unfold natToCharsAux at h
    by_cases h10 : n < 10
    · rw [if_pos h10] at h
      rcases List.mem_cons.mp h with h1 | h1
      · exact Or.inl ⟨n, h1⟩
      · exact Or.inr h1
    · rw [if_neg h10] at h
      rcases ih (n / 10) (digitChar n :: acc) c h with h2 | h2
      · exact Or.inl h2
      · rcases List.mem_cons.mp h2 with h3 | h3
        · exact Or.inl ⟨n, h3⟩
        · exact Or.inr h3

/-- The decimal rendering of a natural number contains no whitespace. -/
theorem natToChars_no_space (n : Nat) (c : Char) (h : c ∈ natToChars n) :
    isSpc c = false := by
  rcases natToCharsAux_mem (n + 1) n [] c h with ⟨d, hd⟩ | h2
  · rw [hd]
    exact isSpc_digitChar d
  · exact absurd h2 (List.not_mem_nil c)

/-- No unit suffix contains whitespace. -/
theorem sizesL_getD_no_space (e : Nat) (c : Char) (h : c ∈ sizesL.getD e []) :
    isSpc c = false := by
  rcases e with _ | _ | _ | _ | _ | _ | _ | e
  · simp [sizesL, List.getD] at h
  · simp [sizesL, List.getD] at h
    rcases h with rfl | rfl <;> decide
  · simp [sizesL, List.getD] at h
    rcases h with rfl | rfl <;> decide
  · simp [sizesL, List.getD] at h
    rcases h with rfl | rfl <;> decide
  · simp [sizesL, List.getD] at h
    rcases h with rfl | rfl <;> decide
  · simp [sizesL, List.getD] at h
    rcases h with rfl | rfl <;> decide
  · simp [sizesL, List.getD] at h
    rcases h with rfl | rfl <;> decide
  · rw [List.getD_eq_default] at h
    · exact absurd h (List.not_mem_nil c)
    · simp [sizesL]

/-- Lemma: `convertBytesToHumanReadable` never emits a whitespace character:
its format strings put nothing between the number and the unit. -/
theorem convertBytesToHumanReadableL_no_space (s : Nat) (c : Char)
    (h : c ∈ convertBytesToHumanReadableL s) : isSpc c = false := by
  unfold convertBytesToHumanReadableL at h
  by_cases h10 : s < 10
  · rw [if_pos h10] at h
    exact natToChars_no_space s c h
  · rw [if_neg h10] at h
    by_cases hv : (20 * s + 1000 ^ natLogF 1000 s s)
        / (2 * 1000 ^ natLogF 1000 s s) < 100
    · simp only [hv, if_true] at h
      rcases List.mem_append.mp h with h1 | h1
      · rcases List.mem_append.mp h1 with h2 | h2
        · exact natToChars_no_space _ c h2
        · rcases List.mem_cons.mp h2 with h3 | h3
          · rw [h3]
            decide
          · exact natToChars_no_space _ c h3
      · exact sizesL_getD_no_space _ c h1
    · simp only [hv, if_false] at h
      rcases List.mem_append.mp h with h1 | h1
      · exact natToChars_no_space _ c h1
      · exact sizesL_getD_no_space _ c h1

/-- C3 as amended: for every size string `parseSize` accepts, the
round trip fails outright — `formatSize` renders the value with no
whitespace between number and unit suffix, while `szRx` demands `\s+`
there, so re-applying `parseSize` to the formatted output reports a
format error instead of a byte count. -/
theorem c3_roundtrip_fails (s : String) (m : Nat)
    (_h : convertHumanReadableToBytes s = some m) :
    convertHumanReadableToBytes (convertBytesToHumanReadable m) = none := by
  have hsz : szMatch (convertBytesToHumanReadableL m) = none := by
    cases hs : szMatch (convertBytesToHumanReadableL m) with
    | none => rfl
    | some mm =>
      obtain ⟨c, hc, hspc⟩ := szMatch_has_space _ _ hs
      have hno := convertBytesToHumanReadableL_no_space m c hc
      rw [hno] at hspc
      exact Bool.noConfusion hspc
  show convB (convertBytesToHumanReadableL m) = none
  unfold convB
  rw [hsz]

/-- Witness for C3's amended theorem at the spec's example. -/
theorem c3_roundtrip_fails_witness :
    convertHumanReadableToBytes "279 GB" = some 279000000000
    ∧ convertHumanReadableToBytes (convertBytesToHumanReadable 279000000000) = none :=
  ⟨rfl, c3_roundtrip_fails "279 GB" 279000000000 rfl⟩

end HP
